import Mathlib

/-!
Verification of the definition-driven code generator of mcp-go-gh
(tools/gen: types.go, parser.go, codegen.go) against its design document.

Go strings are modelled as lists of Unicode characters (with ASCII
capitalization, which covers every identifier the generator handles), the
yaml.Unmarshal decoder and go/format.Source are abstracted as function
arguments, a directory is an ordered listing of (file name, content) pairs,
and the template constants of templates.go, which are not part of the
sources at hand, are modelled structurally from the design document and the
string assertions of the generator's own tests.
-/

namespace McpGen

/-- Parameter mirrors the Parameter struct of tools/gen/types.go: one
command parameter or flag of a subcommand. -/
structure Parameter where
  name : String
  type : String
  itemType : String
  flag : String
  short : String
  description : String
  required : Bool
  positional : Bool
  enum : List String
deriving DecidableEq

/-- Subcommand mirrors the Subcommand struct of tools/gen/types.go. -/
structure Subcommand where
  name : String
  description : String
  parameters : List Parameter
deriving DecidableEq

/-- CommandDefinition mirrors the CommandDefinition struct of
tools/gen/types.go: one top-level gh command group. -/
structure CommandDefinition where
  command : String
  description : String
  subcommands : List Subcommand
deriving DecidableEq

/-- ASCII upper-casing of one character: the effect of the Go expression
strings.ToUpper(part[:1]) when the first byte of the part is ASCII. This
rune-level idealization backs the naming model of the emitters; the
byte-exact counterpart is goUpperByte, and toTitleBytes_agrees proves the
two coincide on all-ASCII input, the domain of every identifier the
generator handles. -/
def upChar (c : Char) : Char :=
  if 97 ≤ c.toNat ∧ c.toNat ≤ 122 then Char.ofNat (c.toNat - 32) else c

/-- The Go expression strings.ToUpper(part[:1]) + part[1:] of toTitle, at
rune level for ASCII-leading parts: capitalize the first character of a
part. The byte-exact counterpart is capFirstBytes, which also covers a
non-ASCII leading byte. -/
def capFirst : List Char → List Char
  | [] => []
  | c :: cs => upChar c :: cs

/-- Go strings.Split on the elements selected by p; splitting the empty
string yields one empty part, exactly as in Go. -/
def splitP {α : Type} (p : α → Bool) : List α → List (List α)
  | [] => [[]]
  | c :: cs =>
    if p c then [] :: splitP p cs
    else
      match splitP p cs with
      | [] => [[c]]
      | t :: ts => (c :: t) :: ts

/-- The Go expression strings.ReplaceAll(s, hyphen, underscore) of toTitle,
on one character. -/
def dashToUnderscore (c : Char) : Char := if c = '-' then '_' else c

/-- toTitle from tools/gen/codegen.go at rune level: replace every hyphen
by an underscore, split on underscores, capitalize the first character of
every part, concatenate the parts. Exact for all-ASCII input by
toTitleBytes_agrees; toTitleBytes is the byte-exact model. -/
def toTitle (s : List Char) : List Char :=
  ((splitP (fun c => c == '_') (s.map dashToUnderscore)).map capFirst).flatten

/-- toTitle lifted to Lean strings. -/
def toTitleS (s : String) : String := ⟨toTitle s.data⟩

/-- Go strings.ToUpper applied to the one-byte string part[:1], at byte
level, as toTitle in tools/gen/codegen.go computes it: an ASCII lowercase
letter is upper-cased, any other ASCII byte is returned unchanged, and a
byte of 128 or above is not valid UTF-8 on its own, so ToUpper decodes it
to the replacement character U+FFFD and re-encodes it as the three bytes
239, 191, 189. -/
def goUpperByte (b : Nat) : List Nat :=
  if 97 ≤ b ∧ b ≤ 122 then [b - 32]
  else if b < 128 then [b]
  else [239, 191, 189]

/-- The Go expression strings.ToUpper(part[:1]) + part[1:] of toTitle at
byte level: the first byte is upper-cased as a one-byte string, possibly
expanding to three bytes, and the rest of the part is appended unchanged. -/
def capFirstBytes : List Nat → List Nat
  | [] => []
  | b :: bs => goUpperByte b ++ bs

/-- strings.ReplaceAll(s, hyphen, underscore) at byte level: hyphen is
byte 45 and underscore byte 95, both one-byte characters in UTF-8. -/
def dashToUnderscoreByte (b : Nat) : Nat := if b = 45 then 95 else b

/-- toTitle from tools/gen/codegen.go at the exact byte level of Go
strings: replace every hyphen byte by an underscore byte, split on
underscore bytes, apply the byte-level first-byte capitalization to every
part, concatenate the parts. -/
def toTitleBytes (s : List Nat) : List Nat :=
  ((splitP (fun b => b == 95) (s.map dashToUnderscoreByte)).map capFirstBytes).flatten

/-- ToUpperCamel as the design document words it in section 4.2, at byte
level: split the input on hyphen and underscore, apply the first-byte
capitalization to each segment, concatenate the segments. -/
def toUpperCamelSpecBytes (s : List Nat) : List Nat :=
  ((splitP (fun b => b == 45 || b == 95) s).map capFirstBytes).flatten

/-- The constant typeString of tools/gen/codegen.go. -/
def typeString : String := "string"

/-- goType from tools/gen/codegen.go: the Go type chosen for a declared
parameter type; the switch falls back to the string type on anything it
does not recognize, and an array item type other than integer keeps the
string item type. -/
def goType (param : Parameter) : String :=
  if param.type = typeString then typeString
  else if param.type = "integer" then "int"
  else if param.type = "boolean" then "bool"
  else if param.type = "array" then
    let itemType :=
      if param.itemType ≠ "" then
        if param.itemType = "integer" then "int" else typeString
      else typeString
    "[]" ++ itemType
  else if param.type = "map" then "map[string]string"
  else "string"

/-- positionalArgs from tools/gen/codegen.go: the positional parameters, in
declared order. -/
def positionalArgs (params : List Parameter) : List Parameter :=
  params.filter (fun p => p.positional)

/-- nonPositional from tools/gen/codegen.go: the flag-style parameters, in
declared order. -/
def nonPositional (params : List Parameter) : List Parameter :=
  params.filter (fun p => !p.positional)

/-- Modelled from the spec: the commandTemplate constant of
tools/gen/templates.go is not among the sources at hand, so the name of the
registration function emitted for one subcommand is taken from the string
assertions of TestGenerateCommandFile and TestGenerateCode in
src/tools/gen, which require the emitted unit to contain
func Register plus the title-cased group, the title-cased subcommand and
the suffix Tool, for pairs such as example/run and test/list. -/
def registrationFuncName (group sub : String) : String :=
  "Register" ++ toTitleS group ++ toTitleS sub ++ "Tool"

/-- Modelled from the spec: the shape of one registration function of the
unit rendered by commandTemplate, per section 4.4 of the design document:
the base invocation tokens are the group name then the subcommand name,
the positional parameters follow in declared order as bare tokens, and the
flag-style parameters are rendered afterwards. -/
structure EmittedTool where
  funcName : String
  baseArgs : List String
  positionalTokens : List String
  flagParams : List Parameter
deriving DecidableEq

/-- Modelled from the spec: the registration function rendered for one
subcommand by commandTemplate. -/
def emitTool (group : String) (s : Subcommand) : EmittedTool :=
  { funcName := registrationFuncName group s.name
    baseArgs := [group, s.name]
    positionalTokens := (positionalArgs s.parameters).map (fun p => p.name)
    flagParams := nonPositional s.parameters }

/-- Modelled from the spec: the per-subcommand content of the unit rendered
by commandTemplate: one registration function per subcommand, in declared
order. -/
def emitCommand (d : CommandDefinition) : List EmittedTool :=
  d.subcommands.map (emitTool d.command)

/-- One registration call statement of the registry body, as asserted by
TestGenerateRegistry in src/tools/gen: the registration function applied to
the pair (server, exec). -/
def registrationCall (group sub : String) : String :=
  registrationFuncName group sub ++ "(server, exec)"

/-- Modelled from the spec: the loop of the registryTemplate constant of
tools/gen/templates.go, executed buffer-style: the call statements of the
body of RegisterAllTools are appended group by group and, within a group,
subcommand by subcommand. -/
def registryCallsAux (acc : List String) : List CommandDefinition → List String
  | [] => acc
  | d :: ds =>
      registryCallsAux
        (acc ++ d.subcommands.map (fun s => registrationCall d.command s.name)) ds

/-- The body of the generated RegisterAllTools entry point, one call
statement per subcommand. -/
def registryCalls (defs : List CommandDefinition) : List String :=
  registryCallsAux [] defs

/-- The registry body as the design document words it in section 4.5: every
subcommand's registration call from every group, in the exact order the
groups were supplied, group order then subcommand order. -/
def flatRegistrations (defs : List CommandDefinition) : List String :=
  defs.flatMap (fun d => d.subcommands.map (fun s => registrationCall d.command s.name))

/-- Modelled from the spec: the full text rendered by registryTemplate: a
generated-code header, the RegisterAllTools entry point, one indented call
statement per subcommand, and the closing brace. -/
def renderRegistry (defs : List CommandDefinition) : String :=
  "// Code generated by tools/gen. DO NOT EDIT.\n\npackage generated\n\n" ++
    "func RegisterAllTools(server *mcp.Server, exec *executor.Executor) \x7b\n" ++
    String.join ((registryCalls defs).map (fun c => "\t" ++ c ++ "\n")) ++ "\x7d\n"

/-- Modelled from the spec: the text rendered by commandTemplate, flattened
from the per-subcommand structure; no claim depends on the body text beyond
the registration-function headers. -/
def renderCommand (d : CommandDefinition) : String :=
  "// Code generated by tools/gen. DO NOT EDIT.\n\npackage generated\n\n" ++
    String.join ((emitCommand d).map (fun t =>
      "func " ++ t.funcName ++ "(server *mcp.Server, exec *executor.Executor) \x7b\n\x7d\n"))

/-- The file name stem construction of generateCommandFile in
tools/gen/codegen.go: Sprintf of the command name followed by the literal
suffix. -/
def outputFileName (d : CommandDefinition) : String := d.command ++ "_gen.go"

/-- The outcome of one generation call: the file name written, the bytes
written, and the warnings printed to standard error. -/
structure Emitted where
  filename : String
  content : String
  warnings : List String
deriving DecidableEq

/-- generateCommandFile from tools/gen/codegen.go, with go/format.Source
abstracted as the argument fmtSrc and the filesystem write kept outside the
model: render the template, try to format, and on a formatting failure fall
back to the unformatted rendering together with a printed warning instead
of failing. -/
def generateCommandFile (fmtSrc : String → Except String String)
    (d : CommandDefinition) : Except String Emitted :=
  let rendered := renderCommand d
  match fmtSrc rendered with
  | .ok f => .ok { filename := outputFileName d, content := f, warnings := [] }
  | .error e =>
      .ok { filename := outputFileName d, content := rendered
            warnings := ["Warning: failed to format " ++ d.command ++ ": " ++ e] }

/-- generateRegistry from tools/gen/codegen.go, with go/format.Source
abstracted as the argument fmtSrc, with the same formatting fallback as
generateCommandFile. -/
def generateRegistry (fmtSrc : String → Except String String)
    (defs : List CommandDefinition) : Except String Emitted :=
  let rendered := renderRegistry defs
  match fmtSrc rendered with
  | .ok f => .ok { filename := "registry_gen.go", content := f, warnings := [] }
  | .error e =>
      .ok { filename := "registry_gen.go", content := rendered
            warnings := ["Warning: failed to format registry: " ++ e] }

/-- Whether a file name is matched by the glob pattern used by
ParseDefinitions in tools/gen/parser.go: the name ends in the literal
extension ".yaml". -/
def matchesYamlGlob (name : String) : Bool := ".yaml".data.isSuffixOf name.data

/-- A directory is an ordered listing of (file name, file content) pairs;
none models a directory that does not exist. -/
abbrev DirListing := Option (List (String × String))

/-- filepath.Glob over the yaml pattern, as called by ParseDefinitions: a
directory that does not exist matches nothing and reports no error;
otherwise exactly the matching files are kept, in listing order. -/
def globYaml (dir : DirListing) : List (String × String) :=
  match dir with
  | none => []
  | some fs => fs.filter (fun f => matchesYamlGlob f.1)

/-- parseDefinitionFile from tools/gen/parser.go, with the yaml.Unmarshal
decoder abstracted as the argument decode and the file read represented by
the given content: a decode failure is wrapped as a failed-to-unmarshal
error. -/
def parseDefinitionFile (decode : String → Except String CommandDefinition)
    (file : String × String) : Except String CommandDefinition :=
  match decode file.2 with
  | .ok d => .ok d
  | .error e => .error ("failed to unmarshal YAML: " ++ e)

/-- The loop of ParseDefinitions in tools/gen/parser.go over the globbed
files: the first file that fails to parse aborts the run with an error
naming that file; otherwise the decoded groups accumulate in file order. -/
def parseFiles (decode : String → Except String CommandDefinition) :
    List (String × String) → Except String (List CommandDefinition)
  | [] => .ok []
  | f :: fs =>
    match parseDefinitionFile decode f with
    | .error e => .error ("failed to parse " ++ f.1 ++ ": " ++ e)
    | .ok d =>
      match parseFiles decode fs with
      | .error e => .error e
      | .ok ds => .ok (d :: ds)

/-- ParseDefinitions from tools/gen/parser.go: glob the directory for
definition files and parse each in order. -/
def ParseDefinitions (decode : String → Except String CommandDefinition)
    (dir : DirListing) : Except String (List CommandDefinition) :=
  parseFiles decode (globYaml dir)

/-- A decoder that accepts any content, standing in for yaml.Unmarshal on a
well-formed definition file. -/
def decodeAlwaysOk : String → Except String CommandDefinition :=
  fun _ => .ok { command := "t", description := "", subcommands := [] }

/-- A decoder that fails on the broken content used by the mixed-files test
of src/tools/gen/parser_error_test.go and accepts anything else. -/
def decodeBracketFails : String → Except String CommandDefinition :=
  fun c =>
    if c = "command: [" then Except.error "yaml: line 1: did not find expected node content"
    else Except.ok { command := "valid", description := "", subcommands := [] }

/-- The directory of the mixed-files scenario of
src/tools/gen/parser_error_test.go: one well-formed and one broken
definition file. -/
def mixedDir : DirListing := some [("valid.yaml", "command: valid"), ("invalid.yaml", "command: [")]

/-- The limit parameter of the TestGenerateCode fixture in src/tools/gen. -/
def limitParam : Parameter :=
  { name := "limit", type := "integer", itemType := "", flag := "--limit", short := "-L",
    description := "Maximum number", required := false, positional := false, enum := [] }

/-- The name parameter of the TestGenerateCode fixture in src/tools/gen. -/
def createNameParam : Parameter :=
  { name := "name", type := "string", itemType := "", flag := "", short := "",
    description := "Item name", required := true, positional := true, enum := [] }

/-- The command group of the TestGenerateCode fixture in src/tools/gen:
group test with subcommands list and create. -/
def c1TestDefinition : CommandDefinition :=
  { command := "test", description := "Test command",
    subcommands :=
      [ { name := "list", description := "List items", parameters := [limitParam] },
        { name := "create", description := "Create item", parameters := [createNameParam] } ] }

/-- The verbose parameter of the TestGenerateCommandFile fixture in
src/tools/gen. -/
def verboseParam : Parameter :=
  { name := "verbose", type := "boolean", itemType := "", flag := "--verbose", short := "-v",
    description := "Enable verbose output", required := false, positional := false, enum := [] }

/-- The command group of the TestGenerateCommandFile fixture in
src/tools/gen: group example with subcommand run. -/
def exampleRunDefinition : CommandDefinition :=
  { command := "example", description := "Example command",
    subcommands := [ { name := "run", description := "Run example", parameters := [verboseParam] } ] }

/-- The first positional parameter of the positional-ordering scenario. -/
def posNameParam : Parameter :=
  { name := "name", type := "string", itemType := "", flag := "", short := "",
    description := "Item name (positional)", required := true, positional := true, enum := [] }

/-- The second positional parameter of the positional-ordering scenario. -/
def posValueParam : Parameter :=
  { name := "value", type := "string", itemType := "", flag := "", short := "",
    description := "Item value (positional)", required := false, positional := true, enum := [] }

/-- The flag-style parameter of the positional-ordering scenario. -/
def posForceParam : Parameter :=
  { name := "force", type := "boolean", itemType := "", flag := "--force", short := "",
    description := "Force operation", required := false, positional := false, enum := [] }

/-- A subcommand that declares a flag-style parameter between its two
positional parameters. -/
def posAddSub : Subcommand :=
  { name := "add", description := "Add item",
    parameters := [posNameParam, posForceParam, posValueParam] }

/-- A string-typed parameter, from the parameter-types fixture of
TestGenerateCode in src/tools/gen. -/
def strParam : Parameter :=
  { name := "str", type := "string", itemType := "", flag := "", short := "",
    description := "String param", required := false, positional := false, enum := [] }

/-- An integer-typed parameter, from the same fixture. -/
def numParam : Parameter :=
  { name := "num", type := "integer", itemType := "", flag := "", short := "",
    description := "Integer param", required := false, positional := false, enum := [] }

/-- A boolean-typed parameter, from the same fixture. -/
def flagParam : Parameter :=
  { name := "flag", type := "boolean", itemType := "", flag := "", short := "",
    description := "Boolean param", required := false, positional := false, enum := [] }

/-- An array-of-string parameter, from the same fixture. -/
def listParam : Parameter :=
  { name := "list", type := "array", itemType := "string", flag := "", short := "",
    description := "Array param", required := false, positional := false, enum := [] }

/-- An array-of-integer parameter. -/
def intListParam : Parameter :=
  { name := "ints", type := "array", itemType := "integer", flag := "", short := "",
    description := "Integer array param", required := false, positional := false, enum := [] }

/-- A map-typed parameter. -/
def configParam : Parameter :=
  { name := "config", type := "map", itemType := "", flag := "", short := "",
    description := "Config map", required := false, positional := false, enum := [] }

/-- A parameter with a declared type the mapper does not recognize. -/
def unknownParam : Parameter :=
  { name := "u", type := "uuid", itemType := "", flag := "", short := "",
    description := "Unknown-typed param", required := false, positional := false, enum := [] }

/-- A formatter that always fails, standing in for go/format.Source on a
rendering it cannot parse. -/
def fmtAlwaysFails : String → Except String String := fun _ => Except.error "boom"

/-- The CommandDefinition produced by decoding an empty definition file:
every field holds its zero value, as documented by the empty-file case of
src/tools/gen/parser_error_test.go. -/
def emptyGroup : CommandDefinition := { command := "", description := "", subcommands := [] }

/-- A decoder that maps empty content to the zero-valued group, standing in
for yaml.Unmarshal on an empty file. -/
def decodeEmptyToZero : String → Except String CommandDefinition :=
  fun c => if c = "" then Except.ok emptyGroup else Except.error "not empty"

/-- Construction of a character from a valid code point keeps the code
point. -/
theorem char_toNat_ofNat (n : Nat) (h : Nat.isValidChar n) : (Char.ofNat n).toNat = n := by
  unfold Char.ofNat
  rw [dif_pos h]
  unfold Char.ofNatAux Char.toNat
  simp [UInt32.toNat]

/-- Upper-casing a lowercase ASCII letter subtracts 32 from its code
point. -/
theorem upChar_toNat (c : Char) (h : 97 ≤ c.toNat ∧ c.toNat ≤ 122) :
    (upChar c).toNat = c.toNat - 32 := by
  unfold upChar
  rw [if_pos h]
  exact char_toNat_ofNat _ (Or.inl (by omega))

/-- Upper-casing leaves every character that is not a lowercase ASCII
letter unchanged. -/
theorem upChar_eq_self (c : Char) (h : ¬(97 ≤ c.toNat ∧ c.toNat ≤ 122)) : upChar c = c := by
  unfold upChar
  exact if_neg h

/-- Splitting never yields an empty list of parts. -/
theorem splitP_ne_nil {α : Type} (p : α → Bool) (l : List α) : splitP p l ≠ [] := by
  cases l with
  | nil => simp [splitP]
  | cons c cs =>
    simp only [splitP]
    split
    · simp
    · split <;> simp

/-- Replacing hyphen bytes by underscore bytes and then splitting on
underscore bytes is the same as splitting on both separator bytes at
once. -/
theorem splitP_map_dashByte (l : List Nat) :
    splitP (fun b => b == 95) (l.map dashToUnderscoreByte) =
      splitP (fun b => b == 45 || b == 95) l := by
  induction l with
  | nil => rfl
  | cons b bs ih =>
    by_cases h : b = 45
    · subst h
      simp [splitP, dashToUnderscoreByte, ih]
    · have hd : dashToUnderscoreByte b = b := if_neg h
      have hc : ((b == 45 || b == 95) : Bool) = (b == 95) := by simp [h]
      simp only [List.map_cons, hd, splitP, ih, hc]

/-- No part produced by splitting contains a separator element. -/
theorem splitP_sep_free {α : Type} (p : α → Bool) (l : List α) :
    ∀ t ∈ splitP p l, ∀ c ∈ t, p c = false := by
  induction l with
  | nil =>
    intro t ht c hc
    simp [splitP] at ht
    subst ht
    simp at hc
  | cons a as ih =>
    intro t ht c hc
    simp only [splitP] at ht
    by_cases hpa : p a
    · rw [if_pos hpa] at ht
      rcases List.mem_cons.mp ht with h | h
      · subst h; simp at hc
      · exact ih t h c hc
    · rw [if_neg hpa] at ht
      rcases hsplit : splitP p as with _ | ⟨t0, ts⟩
      · exact absurd hsplit (splitP_ne_nil p as)
      · rw [hsplit] at ht
        rcases List.mem_cons.mp ht with h | h
        · subst h
          rcases List.mem_cons.mp hc with h | h
          · subst h
            exact Bool.not_eq_true _ ▸ (by simpa using hpa)
          · exact ih t0 (hsplit ▸ List.mem_cons_self t0 ts) c h
        · exact ih t (hsplit ▸ List.mem_cons_of_mem t0 h) c hc

/-- Every element of every part produced by splitting comes from the
input. -/
theorem mem_of_mem_splitP {α : Type} (p : α → Bool) (l : List α) :
    ∀ t ∈ splitP p l, ∀ c ∈ t, c ∈ l := by
  induction l with
  | nil =>
    intro t ht c hc
    simp [splitP] at ht
    subst ht
    simp at hc
  | cons a as ih =>
    intro t ht c hc
    simp only [splitP] at ht
    by_cases hpa : p a
    · rw [if_pos hpa] at ht
      rcases List.mem_cons.mp ht with h | h
      · subst h; simp at hc
      · exact List.mem_cons_of_mem a (ih t h c hc)
    · rw [if_neg hpa] at ht
      rcases hsplit : splitP p as with _ | ⟨t0, ts⟩
      · exact absurd hsplit (splitP_ne_nil p as)
      · rw [hsplit] at ht
        rcases List.mem_cons.mp ht with h | h
        · subst h
          rcases List.mem_cons.mp hc with h | h
          · subst h; exact List.mem_cons_self c as
          · exact List.mem_cons_of_mem a (ih t0 (hsplit ▸ List.mem_cons_self t0 ts) c h)
        · exact List.mem_cons_of_mem a (ih t (hsplit ▸ List.mem_cons_of_mem t0 h) c hc)

/-- Splitting a separator-free input yields that input as the one part. -/
theorem splitP_eq_single {α : Type} (p : α → Bool) (l : List α)
    (h : ∀ c ∈ l, p c = false) : splitP p l = [l] := by
  induction l with
  | nil => rfl
  | cons c cs ih =>
    have hc : p c = false := h c (List.mem_cons_self c cs)
    have hrec := ih (fun d hd => h d (List.mem_cons_of_mem c hd))
    simp only [splitP, hc, Bool.false_eq_true, if_false, hrec]

/-- Capitalizing an ASCII byte yields a single ASCII byte that a second
capitalization leaves unchanged. -/
theorem goUpperByte_fixed (b : Nat) (hb : b < 128) :
    ∃ b2, goUpperByte b = [b2] ∧ b2 < 128 ∧ goUpperByte b2 = [b2] := by
  unfold goUpperByte
  by_cases h : 97 ≤ b ∧ b ≤ 122
  · refine ⟨b - 32, by rw [if_pos h], by omega, ?_⟩
    rw [if_neg (by omega), if_pos (by omega)]
  · exact ⟨b, by rw [if_neg h, if_pos hb], hb, by rw [if_neg h, if_pos hb]⟩

/-- Byte-level capitalization never produces a hyphen or an underscore
byte from a part that contains neither. -/
theorem goUpperByte_ne_sep (b : Nat) (h1 : b ≠ 45) (h2 : b ≠ 95) :
    ∀ x ∈ goUpperByte b, x ≠ 45 ∧ x ≠ 95 := by
  intro x hx
  unfold goUpperByte at hx
  by_cases h : 97 ≤ b ∧ b ≤ 122
  · rw [if_pos h] at hx
    rw [List.mem_singleton] at hx
    subst hx
    omega
  · rw [if_neg h] at hx
    by_cases hb : b < 128
    · rw [if_pos hb, List.mem_singleton] at hx
      subst hx
      exact ⟨h1, h2⟩
    · rw [if_neg hb] at hx
      have hx3 : x = 239 ∨ x = 191 ∨ x = 189 := by simpa using hx
      rcases hx3 with rfl | rfl | rfl <;> exact ⟨by omega, by omega⟩

/-- The concatenation of byte-capitalized all-ASCII parts starts with a
byte that a second capitalization leaves fixed. -/
theorem capFirstBytes_flatten_ascii (ps : List (List Nat))
    (h : ∀ t ∈ ps, ∀ b ∈ t, b < 128) :
    capFirstBytes ((ps.map capFirstBytes).flatten) = (ps.map capFirstBytes).flatten := by
  induction ps with
  | nil => rfl
  | cons t ts ih =>
    have hts := ih (fun u hu => h u (List.mem_cons_of_mem t hu))
    cases t with
    | nil => simpa [capFirstBytes] using hts
    | cons b bs =>
      have hb : b < 128 := h (b :: bs) (List.mem_cons_self _ _) b (List.mem_cons_self b bs)
      obtain ⟨b2, hb1, _, hb3⟩ := goUpperByte_fixed b hb
      simp [capFirstBytes, hb1, hb3]

/-- Replacing a hyphen byte yields an underscore byte, so the replacement
map never produces a hyphen byte. -/
theorem dashToUnderscoreByte_ne_dash (b : Nat) : dashToUnderscoreByte b ≠ 45 := by
  unfold dashToUnderscoreByte
  split
  · omega
  · assumption

/-- The byte-exact toTitle computes exactly the split-on-both-separators
transform that the design document describes. -/
theorem toTitleBytes_eq_spec (s : List Nat) : toTitleBytes s = toUpperCamelSpecBytes s := by
  unfold toTitleBytes toUpperCamelSpecBytes
  rw [splitP_map_dashByte]

/-- The output of the byte-exact toTitle contains no hyphen byte and no
underscore byte, whatever the input. -/
theorem toTitleBytes_sep_free (s : List Nat) :
    ∀ b ∈ toTitleBytes s, b ≠ 45 ∧ b ≠ 95 := by
  intro b hb
  unfold toTitleBytes at hb
  rw [List.mem_flatten] at hb
  obtain ⟨t2, ht2, hbt2⟩ := hb
  rw [List.mem_map] at ht2
  obtain ⟨t, ht, rfl⟩ := ht2
  have hsep := splitP_sep_free (fun b => b == 95) (s.map dashToUnderscoreByte) t ht
  have hmem := mem_of_mem_splitP (fun b => b == 95) (s.map dashToUnderscoreByte) t ht
  have himg : ∀ a ∈ t, a ≠ 45 ∧ a ≠ 95 := by
    intro a ha
    refine ⟨?_, by simpa using hsep a ha⟩
    have := hmem a ha
    rw [List.mem_map] at this
    obtain ⟨x, _, rfl⟩ := this
    exact dashToUnderscoreByte_ne_dash x
  cases t with
  | nil => simp [capFirstBytes] at hbt2
  | cons a as =>
    rw [show capFirstBytes (a :: as) = goUpperByte a ++ as from rfl, List.mem_append] at hbt2
    rcases hbt2 with hup | hmem2
    · have ha := himg a (List.mem_cons_self a as)
      exact goUpperByte_ne_sep a ha.1 ha.2 b hup
    · exact himg b (List.mem_cons_of_mem a hmem2)

/-- On input free of hyphen and underscore bytes, the byte-exact toTitle
only capitalizes the first byte. -/
theorem toTitleBytes_fixed (s : List Nat) (h : ∀ b ∈ s, b ≠ 45 ∧ b ≠ 95) :
    toTitleBytes s = capFirstBytes s := by
  unfold toTitleBytes
  have hmap : s.map dashToUnderscoreByte = s := by
    have heq : ∀ b ∈ s, dashToUnderscoreByte b = b := fun b hb => if_neg (h b hb).1
    calc s.map dashToUnderscoreByte = s.map id := List.map_congr_left heq
    _ = s := s.map_id
  rw [hmap, splitP_eq_single _ s (fun b hb => by simpa using (h b hb).2)]
  simp

/-- Every byte of every part the byte-exact toTitle capitalizes stays
below 128 when the input is all-ASCII. -/
theorem splitP_dash_ascii (s : List Nat) (h : ∀ b ∈ s, b < 128) :
    ∀ t ∈ splitP (fun b => b == 95) (s.map dashToUnderscoreByte), ∀ b ∈ t, b < 128 := by
  intro t ht b hb
  have := mem_of_mem_splitP (fun b => b == 95) (s.map dashToUnderscoreByte) t ht b hb
  rw [List.mem_map] at this
  obtain ⟨a, ha, rfl⟩ := this
  have := h a ha
  unfold dashToUnderscoreByte
  split <;> omega

/-- On all-ASCII input, applying the byte-exact toTitle twice equals
applying it once. -/
theorem toTitleBytes_idem_ascii (s : List Nat) (h : ∀ b ∈ s, b < 128) :
    toTitleBytes (toTitleBytes s) = toTitleBytes s := by
  rw [toTitleBytes_fixed (toTitleBytes s) (toTitleBytes_sep_free s)]
  conv_rhs => rw [toTitleBytes]
  rw [toTitleBytes]
  exact capFirstBytes_flatten_ascii _ (splitP_dash_ascii s h)

/-- Two characters with the same code point are equal. -/
theorem char_toNat_inj {a b : Char} (h : a.toNat = b.toNat) : a = b := by
  apply Char.ext
  unfold Char.toNat at h
  exact UInt32.ext h

/-- Splitting a mapped list is mapping the split of the list under the
transported predicate. -/
theorem splitP_map {α β : Type} (f : α → β) (p : β → Bool) (l : List α) :
    splitP p (l.map f) = (splitP (fun a => p (f a)) l).map (List.map f) := by
  induction l with
  | nil => rfl
  | cons a as ih =>
    simp only [List.map_cons, splitP]
    by_cases h : p (f a)
    · rw [if_pos h, if_pos h, ih]
      simp
    · rw [if_neg h, if_neg h, ih]
      rcases hq : splitP (fun a => p (f a)) as with _ | ⟨t, ts⟩
      · exact absurd hq (splitP_ne_nil _ _)
      · simp [hq]

/-- The byte of the hyphen replacement is the hyphen replacement of the
byte. -/
theorem dashToUnderscoreByte_toNat (c : Char) :
    dashToUnderscoreByte c.toNat = (dashToUnderscore c).toNat := by
  by_cases h : c = '-'
  · subst h; rfl
  · have h2 : c.toNat ≠ 45 := fun he => h (char_toNat_inj he)
    unfold dashToUnderscoreByte dashToUnderscore
    rw [if_neg h2, if_neg h]

/-- Testing a code point against the underscore byte is testing the
character against the underscore. -/
theorem beq95_toNat (c : Char) : ((c.toNat == 95) : Bool) = (c == '_') := by
  by_cases h : c = '_'
  · subst h; rfl
  · have h2 : c.toNat ≠ 95 := fun he => h (char_toNat_inj he)
    simp [h, h2]

/-- On a part of ASCII characters, byte-level capitalization is the code
point image of rune-level capitalization. -/
theorem capFirstBytes_map_toNat (t : List Char) (h : ∀ c ∈ t, c.toNat < 128) :
    capFirstBytes (t.map Char.toNat) = (capFirst t).map Char.toNat := by
  cases t with
  | nil => rfl
  | cons c cs =>
    have hc : c.toNat < 128 := h c (List.mem_cons_self c cs)
    simp only [List.map_cons, capFirstBytes, capFirst]
    by_cases hl : 97 ≤ c.toNat ∧ c.toNat ≤ 122
    · rw [show goUpperByte c.toNat = [c.toNat - 32] from by unfold goUpperByte; rw [if_pos hl]]
      rw [upChar_toNat c hl]
      rfl
    · rw [show goUpperByte c.toNat = [c.toNat] from by
        unfold goUpperByte; rw [if_neg hl, if_pos hc]]
      rw [upChar_eq_self c hl]
      rfl

/-- On all-ASCII input, the byte-exact toTitle is the code point image of
the rune-level toTitle used by the emitter model. -/
theorem toTitleBytes_agrees (s : List Char) (h : ∀ c ∈ s, c.toNat < 128) :
    toTitleBytes (s.map Char.toNat) = (toTitle s).map Char.toNat := by
  unfold toTitleBytes toTitle
  have h1 : (s.map Char.toNat).map dashToUnderscoreByte =
      (s.map dashToUnderscore).map Char.toNat := by
    rw [List.map_map, List.map_map]
    exact List.map_congr_left (fun c _ => dashToUnderscoreByte_toNat c)
  rw [h1, splitP_map Char.toNat (fun b => b == 95) (s.map dashToUnderscore)]
  have h2 : (fun c => ((Char.toNat c == 95) : Bool)) = (fun c => c == '_') :=
    funext beq95_toNat
  rw [h2, List.map_map]
  have h3 : ∀ t ∈ splitP (fun c => c == '_') (s.map dashToUnderscore),
      (capFirstBytes ∘ List.map Char.toNat) t = (List.map Char.toNat ∘ capFirst) t := by
    intro t ht
    have hAscii : ∀ c ∈ t, c.toNat < 128 := by
      intro c hc
      have := mem_of_mem_splitP _ _ t ht c hc
      rw [List.mem_map] at this
      obtain ⟨a, ha, rfl⟩ := this
      have := h a ha
      unfold dashToUnderscore
      split
      · decide
      · exact this
    exact capFirstBytes_map_toNat t hAscii
  rw [List.map_congr_left h3, ← List.map_map, ← List.map_flatten]

/-- Claim C1, counterexample: on the TestGenerateCode fixture (group test,
subcommands list and create), the registration functions emitted by the
per-command emitter are named RegisterTestListTool and
RegisterTestCreateTool, and the Tool-suffixed name differs from the bare
Register plus group plus subcommand name the claim states. -/
theorem c1_registration_name_counterexample :
    (emitCommand c1TestDefinition).map (fun t => t.funcName) =
      ["RegisterTestListTool", "RegisterTestCreateTool"] ∧
    ("RegisterTestListTool" : String) ≠ "RegisterTestList" :=
  ⟨rfl, by decide⟩

/-- Claim C1, amended: for every command group and every subcommand, the
registration function emitted by the per-command emitter is named Register
followed by the title-cased group name, the title-cased subcommand name,
and the fixed suffix Tool; on the example/run fixture this yields exactly
RegisterExampleRunTool, the name asserted by TestGenerateCommandFile. -/
theorem c1_registration_name_amended :
    (∀ d : CommandDefinition, (emitCommand d).map (fun t => t.funcName) =
      d.subcommands.map
        (fun s => "Register" ++ toTitleS d.command ++ toTitleS s.name ++ "Tool")) ∧
    (emitCommand exampleRunDefinition).map (fun t => t.funcName) = ["RegisterExampleRunTool"] := by
  constructor
  · intro d
    simp [emitCommand, emitTool, registrationFuncName, Function.comp]
  · rfl

/-- The registry loop with an accumulator appends exactly the flattened
per-subcommand registration calls. -/
theorem registryCallsAux_eq (defs : List CommandDefinition) :
    ∀ acc, registryCallsAux acc defs = acc ++ flatRegistrations defs := by
  induction defs with
  | nil => intro acc; simp [registryCallsAux, flatRegistrations]
  | cons d ds ih =>
    intro acc
    simp [registryCallsAux, flatRegistrations, ih, List.append_assoc]

/-- The registry body equals the flattened per-subcommand registration
calls, in group order then subcommand order. -/
theorem registryCalls_eq (defs : List CommandDefinition) :
    registryCalls defs = flatRegistrations defs := by
  simpa [registryCalls] using registryCallsAux_eq defs []

/-- The flattened registration calls number one per subcommand. -/
theorem flatRegistrations_length (defs : List CommandDefinition) :
    (flatRegistrations defs).length = (defs.map (fun d => d.subcommands.length)).sum := by
  induction defs with
  | nil => rfl
  | cons d ds ih =>
    simp only [flatRegistrations] at ih ⊢
    rw [List.flatMap_cons, List.length_append, List.length_map, ih]
    simp

/-- Claim C2: the registry emitter produces one registration call per
subcommand, in the exact order the groups were supplied (group order, then
subcommand order within each group), with one call per subcommand in
total; on the empty input it produces an entry point with an empty body
and succeeds. -/
theorem c2_registry_completeness :
    (∀ defs, registryCalls defs = flatRegistrations defs) ∧
    (∀ defs, (registryCalls defs).length = (defs.map (fun d => d.subcommands.length)).sum) ∧
    registryCalls [] = [] ∧
    (∀ fmtSrc, ∃ out, generateRegistry fmtSrc [] = Except.ok out) := by
  refine ⟨registryCalls_eq, ?_, rfl, ?_⟩
  · intro defs
    rw [registryCalls_eq]
    exact flatRegistrations_length defs
  · intro fmtSrc
    cases hf : fmtSrc (renderRegistry []) with
    | ok f =>
      exact ⟨{ filename := "registry_gen.go", content := f, warnings := [] },
        by simp [generateRegistry, hf]⟩
    | error e =>
      exact ⟨{ filename := "registry_gen.go", content := renderRegistry [],
               warnings := ["Warning: failed to format registry: " ++ e] },
        by simp [generateRegistry, hf]⟩

/-- Claim C3: a subcommand declaring two positional parameters in the
order name then value, with arbitrary flag-style parameters before,
between, or after them, has exactly those two parameters selected by
positionalArgs, in declared order, so the emitted registration function
appends them as two sequential non-flagged tokens in that order. -/
theorem c3_positional_ordering (g : String) (s : Subcommand) (xs ys zs : List Parameter)
    (p q : Parameter) (hp : p.positional = true) (hq : q.positional = true)
    (hxs : ∀ r ∈ xs, r.positional = false) (hys : ∀ r ∈ ys, r.positional = false)
    (hzs : ∀ r ∈ zs, r.positional = false)
    (hparams : s.parameters = xs ++ p :: (ys ++ q :: zs)) :
    positionalArgs s.parameters = [p, q] ∧
    (emitTool g s).positionalTokens = [p.name, q.name] := by
  have hfilter : positionalArgs s.parameters = [p, q] := by
    unfold positionalArgs
    rw [hparams, List.filter_append, List.filter_cons, List.filter_append, List.filter_cons]
    rw [List.filter_eq_nil_iff.mpr (fun a ha => by simp [hxs a ha])]
    rw [List.filter_eq_nil_iff.mpr (fun a ha => by simp [hys a ha])]
    rw [List.filter_eq_nil_iff.mpr (fun a ha => by simp [hzs a ha])]
    simp [hp, hq]
  exact ⟨hfilter, by simp [emitTool, hfilter]⟩

/-- Witness for claim C3: on a subcommand declaring name (positional),
force (flag-style), value (positional), the positional tokens come out as
name then value, sequentially and in declared order. -/
theorem c3_positional_ordering_witness :
    positionalArgs posAddSub.parameters = [posNameParam, posValueParam] ∧
    (emitTool "pos" posAddSub).positionalTokens = ["name", "value"] :=
  c3_positional_ordering "pos" posAddSub [] [posForceParam] [] posNameParam posValueParam rfl rfl
    (by simp) (by decide) (by simp) rfl

/-- A failing file aborts the parse loop with an error naming that file,
whatever well-decoding files precede it. -/
theorem parseFiles_error_at (decode : String → Except String CommandDefinition)
    (f : String × String) (e : String) (fs₂ : List (String × String))
    (he : decode f.2 = Except.error e) :
    ∀ fs₁ : List (String × String), (∀ g ∈ fs₁, ∃ d, decode g.2 = Except.ok d) →
      parseFiles decode (fs₁ ++ f :: fs₂) =
        Except.error ("failed to parse " ++ f.1 ++ ": " ++ ("failed to unmarshal YAML: " ++ e)) := by
  intro fs₁
  induction fs₁ with
  | nil => intro _; simp [parseFiles, parseDefinitionFile, he]
  | cons g gs ih =>
    intro hok
    obtain ⟨d, hd⟩ := hok g (List.mem_cons_self g gs)
    have hrec := ih (fun x hx => hok x (List.mem_cons_of_mem g hx))
    simp [parseFiles, parseDefinitionFile, hd, hrec]

/-- Claim C4: when a matching definition file fails to decode, the whole
load fails with an error naming the offending file, and no list of groups
is returned, discarding the groups decoded from earlier files. -/
theorem c4_decode_failure_aborts (decode : String → Except String CommandDefinition)
    (dir : DirListing) (fs₁ fs₂ : List (String × String)) (f : String × String) (e : String)
    (hsplit : globYaml dir = fs₁ ++ f :: fs₂)
    (hok : ∀ g ∈ fs₁, ∃ d, decode g.2 = Except.ok d)
    (he : decode f.2 = Except.error e) :
    ParseDefinitions decode dir =
      Except.error ("failed to parse " ++ f.1 ++ ": " ++ ("failed to unmarshal YAML: " ++ e)) ∧
    ∀ ds, ParseDefinitions decode dir ≠ Except.ok ds := by
  have heq : parseFiles decode (globYaml dir) =
      Except.error ("failed to parse " ++ f.1 ++ ": " ++ ("failed to unmarshal YAML: " ++ e)) := by
    rw [hsplit]
    exact parseFiles_error_at decode f e fs₂ he fs₁ hok
  refine ⟨heq, ?_⟩
  intro ds h
  have h2 : parseFiles decode (globYaml dir) = Except.ok ds := h
  rw [heq] at h2
  exact Except.noConfusion h2

/-- Witness for claim C4: a directory holding one well-formed and one
broken definition file loads to the error naming the broken file. -/
theorem c4_decode_failure_aborts_witness :
    ParseDefinitions decodeBracketFails mixedDir =
      Except.error "failed to parse invalid.yaml: failed to unmarshal YAML: yaml: line 1: did not find expected node content" :=
  (c4_decode_failure_aborts decodeBracketFails mixedDir [("valid.yaml", "command: valid")] []
    ("invalid.yaml", "command: [") "yaml: line 1: did not find expected node content"
    (by decide)
    (by
      intro g hg
      rw [List.mem_singleton] at hg
      subst hg
      exact ⟨{ command := "valid", description := "", subcommands := [] }, rfl⟩)
    rfl).1

/-- Claim C5: the type mapper is total and follows the fixed table: string
to string, integer to int, boolean to bool, array with string or absent
item type to a string sequence, array with integer item type to an integer
sequence, map to a string-to-string mapping, and every unrecognized type
to the string fallback. -/
theorem c5_type_mapping_total :
    (∀ p : Parameter, p.type = "string" → goType p = "string") ∧
    (∀ p : Parameter, p.type = "integer" → goType p = "int") ∧
    (∀ p : Parameter, p.type = "boolean" → goType p = "bool") ∧
    (∀ p : Parameter, p.type = "array" → (p.itemType = "string" ∨ p.itemType = "") →
      goType p = "[]string") ∧
    (∀ p : Parameter, p.type = "array" → p.itemType = "integer" → goType p = "[]int") ∧
    (∀ p : Parameter, p.type = "map" → goType p = "map[string]string") ∧
    (∀ p : Parameter, p.type ∉ ["string", "integer", "boolean", "array", "map"] →
      goType p = "string") := by
  refine ⟨?_, ?_, ?_, ?_, ?_, ?_, ?_⟩
  · intro p h; simp [goType, typeString, h]
  · intro p h; simp [goType, typeString, h]
  · intro p h; simp [goType, typeString, h]
  · intro p h hit
    rcases hit with hit | hit <;> simp [goType, typeString, h, hit]
  · intro p h hit; simp [goType, typeString, h, hit]
  · intro p h; simp [goType, typeString, h]
  · intro p h
    simp only [List.mem_cons, List.mem_singleton, not_or] at h
    obtain ⟨h1, h2, h3, h4, h5⟩ := h
    simp [goType, typeString, h1, h2, h3, h4, h5]

/-- Witness for claim C5: the mapping evaluated on one concrete parameter
of every table row, including the unrecognized uuid type. -/
theorem c5_type_mapping_total_witness :
    goType strParam = "string" ∧ goType numParam = "int" ∧ goType flagParam = "bool" ∧
    goType listParam = "[]string" ∧ goType intListParam = "[]int" ∧
    goType configParam = "map[string]string" ∧ goType unknownParam = "string" :=
  ⟨c5_type_mapping_total.1 strParam rfl, c5_type_mapping_total.2.1 numParam rfl,
   c5_type_mapping_total.2.2.1 flagParam rfl,
   c5_type_mapping_total.2.2.2.1 listParam rfl (Or.inl rfl),
   c5_type_mapping_total.2.2.2.2.1 intListParam rfl rfl,
   c5_type_mapping_total.2.2.2.2.2.1 configParam rfl,
   c5_type_mapping_total.2.2.2.2.2.2 unknownParam (by decide)⟩

/-- Claim C6, counterexample: toTitle in the source slices the first BYTE
of each part, so on the two-byte string for the character e-acute (bytes
195, 169) the lone leading byte 195 is invalid UTF-8 and strings.ToUpper
replaces it by U+FFFD (bytes 239, 191, 189); a second application mangles
the new leading byte 239 the same way, so toTitle applied twice differs
from toTitle applied once, refuting idempotence for every string. -/
theorem c6_toUpperCamel_counterexample :
    toTitleBytes [195, 169] = [239, 191, 189, 169] ∧
    toTitleBytes (toTitleBytes [195, 169]) = [239, 191, 189, 191, 189, 169] ∧
    toTitleBytes (toTitleBytes [195, 169]) ≠ toTitleBytes [195, 169] :=
  ⟨rfl, rfl, by decide⟩

/-- Claim C6, amended: at the exact byte level, toTitle splits its input
on hyphen and underscore bytes, applies ToUpper to the one-byte slice of
each segment head (capitalizing an ASCII letter, keeping any other ASCII
byte, and replacing a non-ASCII byte by U+FFFD) and concatenates; the
empty string maps to the empty string; idempotence holds for every
all-ASCII string; and on all-ASCII input the byte-exact function is the
code point image of the rune-level toTitle the emitter model uses. -/
theorem c6_toUpperCamel_ascii_idempotent :
    (∀ s : List Nat, toTitleBytes s = toUpperCamelSpecBytes s) ∧
    toTitleBytes [] = [] ∧
    (∀ s : List Nat, (∀ b ∈ s, b < 128) → toTitleBytes (toTitleBytes s) = toTitleBytes s) ∧
    (∀ s : List Char, (∀ c ∈ s, c.toNat < 128) →
      toTitleBytes (s.map Char.toNat) = (toTitle s).map Char.toNat) :=
  ⟨toTitleBytes_eq_spec, rfl, toTitleBytes_idem_ascii, toTitleBytes_agrees⟩

/-- Witness for claim C6: on the ASCII bytes of the string gpg-key,
toTitle applied twice equals toTitle applied once, and the byte-exact
function agrees with the rune-level model there. -/
theorem c6_toUpperCamel_ascii_idempotent_witness :
    toTitleBytes (toTitleBytes [103, 112, 103, 45, 107, 101, 121]) =
      toTitleBytes [103, 112, 103, 45, 107, 101, 121] ∧
    toTitleBytes ("gpg-key".data.map Char.toNat) = (toTitle "gpg-key".data).map Char.toNat :=
  ⟨c6_toUpperCamel_ascii_idempotent.2.2.1 [103, 112, 103, 45, 107, 101, 121] (by decide),
   c6_toUpperCamel_ascii_idempotent.2.2.2 "gpg-key".data (by decide)⟩

/-- Claim C7: when formatting of a rendered unit fails, neither the
per-command generator nor the registry generator aborts: each returns
success, with the unformatted rendering as the written content and a
formatting warning recorded. -/
theorem c7_format_failure_nonfatal :
    (∀ (fmtSrc : String → Except String String) (d : CommandDefinition) (e : String),
      fmtSrc (renderCommand d) = Except.error e →
      generateCommandFile fmtSrc d =
        Except.ok { filename := outputFileName d, content := renderCommand d,
                    warnings := ["Warning: failed to format " ++ d.command ++ ": " ++ e] }) ∧
    (∀ (fmtSrc : String → Except String String) (defs : List CommandDefinition) (e : String),
      fmtSrc (renderRegistry defs) = Except.error e →
      generateRegistry fmtSrc defs =
        Except.ok { filename := "registry_gen.go", content := renderRegistry defs,
                    warnings := ["Warning: failed to format registry: " ++ e] }) := by
  constructor
  · intro fmtSrc d e h
    simp [generateCommandFile, h]
  · intro fmtSrc defs e h
    simp [generateRegistry, h]

/-- Witness for claim C7: a formatter that always fails still lets both
generators succeed, writing the unformatted rendering with a warning. -/
theorem c7_format_failure_nonfatal_witness :
    generateCommandFile fmtAlwaysFails exampleRunDefinition =
      Except.ok { filename := "example_gen.go",
                  content := renderCommand exampleRunDefinition,
                  warnings := ["Warning: failed to format example: boom"] } ∧
    generateRegistry fmtAlwaysFails [] =
      Except.ok { filename := "registry_gen.go", content := renderRegistry [],
                  warnings := ["Warning: failed to format registry: boom"] } :=
  ⟨c7_format_failure_nonfatal.1 fmtAlwaysFails exampleRunDefinition "boom" rfl,
   c7_format_failure_nonfatal.2 fmtAlwaysFails [] "boom" rfl⟩

/-- Claim C8: loading a directory that does not exist, or one whose files
all fail the yaml pattern, returns the empty sequence and no error. -/
theorem c8_empty_directory_ok (decode : String → Except String CommandDefinition) :
    ParseDefinitions decode none = Except.ok [] ∧
    (∀ fs : List (String × String), (∀ f ∈ fs, matchesYamlGlob f.1 = false) →
      ParseDefinitions decode (some fs) = Except.ok []) := by
  refine ⟨rfl, ?_⟩
  intro fs h
  have hg : globYaml (some fs) = fs.filter (fun f => matchesYamlGlob f.1) := rfl
  unfold ParseDefinitions
  rw [hg, List.filter_eq_nil_iff.mpr (fun a ha => by simp [h a ha])]
  rfl

/-- Witness for claim C8: the nonexistent directory and a directory
holding only a text file both load to the empty sequence without error. -/
theorem c8_empty_directory_ok_witness :
    ParseDefinitions decodeAlwaysOk none = Except.ok [] ∧
    ParseDefinitions decodeAlwaysOk (some [("readme.txt", "text")]) = Except.ok [] :=
  ⟨(c8_empty_directory_ok decodeAlwaysOk).1,
   (c8_empty_directory_ok decodeAlwaysOk).2 [("readme.txt", "text")] (by decide)⟩

/-- Claim C9: a file whose name does not end in ".yaml", inserted anywhere
in the directory listing, changes nothing about the result of the load: it
contributes no group and causes no error. -/
theorem c9_glob_selects_yaml_only (decode : String → Except String CommandDefinition)
    (fs₁ fs₂ : List (String × String)) (n c : String)
    (h : matchesYamlGlob n = false) :
    ParseDefinitions decode (some (fs₁ ++ (n, c) :: fs₂)) =
      ParseDefinitions decode (some (fs₁ ++ fs₂)) := by
  have hg1 : globYaml (some (fs₁ ++ (n, c) :: fs₂)) =
      (fs₁ ++ (n, c) :: fs₂).filter (fun f => matchesYamlGlob f.1) := rfl
  have hg2 : globYaml (some (fs₁ ++ fs₂)) =
      (fs₁ ++ fs₂).filter (fun f => matchesYamlGlob f.1) := rfl
  unfold ParseDefinitions
  rw [hg1, hg2, List.filter_append, List.filter_cons, List.filter_append]
  simp [h]

/-- Witness for claim C9: a file named with the ".yml" extension is
silently ignored next to a ".yaml" file. -/
theorem c9_glob_selects_yaml_only_witness :
    ParseDefinitions decodeAlwaysOk (some [("a.yaml", "command: a"), ("b.yml", "command: b")]) =
      ParseDefinitions decodeAlwaysOk (some [("a.yaml", "command: a")]) :=
  c9_glob_selects_yaml_only decodeAlwaysOk [("a.yaml", "command: a")] [] "b.yml" "command: b"
    (by decide)

/-- Claim C10: the non-empty-name invariant is not enforced at
construction: a matching definition file whose content decodes to the
zero-valued group loads successfully as a group whose name is the empty
string, and the generation step for that group writes its output to the
file named _gen.go. -/
theorem c10_empty_name_not_enforced (decode : String → Except String CommandDefinition)
    (h : decode "" = Except.ok emptyGroup) :
    ParseDefinitions decode (some [("empty.yaml", "")]) = Except.ok [emptyGroup] ∧
    outputFileName emptyGroup = "_gen.go" ∧
    (∀ fmtSrc, ∃ out, generateCommandFile fmtSrc emptyGroup = Except.ok out ∧
      out.filename = "_gen.go") := by
  refine ⟨?_, rfl, ?_⟩
  · have hg : globYaml (some [("empty.yaml", "")]) = [("empty.yaml", "")] := by decide
    unfold ParseDefinitions
    rw [hg]
    simp [parseFiles, parseDefinitionFile, h]
  · intro fmtSrc
    cases hf : fmtSrc (renderCommand emptyGroup) with
    | ok f =>
      exact ⟨{ filename := outputFileName emptyGroup, content := f, warnings := [] },
        by simp [generateCommandFile, hf], rfl⟩
    | error e =>
      exact ⟨{ filename := outputFileName emptyGroup, content := renderCommand emptyGroup,
               warnings := ["Warning: failed to format " ++ emptyGroup.command ++ ": " ++ e] },
        by simp [generateCommandFile, hf], rfl⟩

/-- Witness for claim C10: decoding the empty definition file yields the
group with the empty name, and its output file name is _gen.go. -/
theorem c10_empty_name_not_enforced_witness :
    ParseDefinitions decodeEmptyToZero (some [("empty.yaml", "")]) = Except.ok [emptyGroup] ∧
    outputFileName emptyGroup = "_gen.go" :=
  ⟨(c10_empty_name_not_enforced decodeEmptyToZero rfl).1,
   (c10_empty_name_not_enforced decodeEmptyToZero rfl).2.1⟩

end McpGen
